import Mathlib

/-!
Verification of the Solidity source-resolution and batch static-analysis
harness (`run_slither_defi_from_cache.py`).  Each definition below is a
shallow embedding of a function of that file; line numbers in comments
refer to the Python source.
-/

namespace Harness

/-! ### Compiler versions (`_vtuple`, line 507) -/

/-- A semantic version triple, the result of `_vtuple(v)` on a `"x.y.z"`
string (line 507-509). -/
structure Version where
  major : Nat
  minor : Nat
  patch : Nat
deriving DecidableEq, Repr

/-- Python tuple comparison `_vtuple(a) <= _vtuple(b)`: lexicographic
order on `(major, minor, patch)`. -/
def vle (a b : Version) : Prop :=
  a.major < b.major ∨
    (a.major = b.major ∧
      (a.minor < b.minor ∨ (a.minor = b.minor ∧ a.patch ≤ b.patch)))

/-- Python tuple comparison `_vtuple(a) < _vtuple(b)`: strict
lexicographic order on `(major, minor, patch)`. -/
def vlt (a b : Version) : Prop :=
  a.major < b.major ∨
    (a.major = b.major ∧
      (a.minor < b.minor ∨ (a.minor = b.minor ∧ a.patch < b.patch)))

instance : DecidableRel vle := fun a b => by unfold vle; infer_instance

instance : DecidableRel vlt := fun a b => by unfold vlt; infer_instance

theorem vle_refl (a : Version) : vle a a := by unfold vle; omega

theorem vle_trans {a b c : Version} (h1 : vle a b) (h2 : vle b c) : vle a c := by
  unfold vle at *; omega

theorem vle_total (a b : Version) : vle a b ∨ vle b a := by
  unfold vle; omega

theorem vle_antisymm {a b : Version} (h1 : vle a b) (h2 : vle b a) : a = b := by
  cases a; cases b; unfold vle at *; simp_all; omega

instance : IsTotal Version vle := ⟨vle_total⟩

instance : IsTrans Version vle := ⟨fun _ _ _ => vle_trans⟩

/-! ### Constraint expressions and `_pick_solc_for_pragma` (lines 512-573)

The Python function classifies the pragma string by regular expressions
into four supported shapes (exact `=x.y.z` / bare `x.y.z`, caret
`^x.y.z`, range `>=a <b`, lower bound `>=a`); anything else falls
through to `return None` (line 573).  The embedding represents the
already-classified expression as an inductive type; the numeric payload
of each regex group is a `Version`. -/

inductive ConstraintExpr where
  | exact (v : Version)
  | caret (base : Version)
  | range (lo hi : Version)
  | lower (lo : Version)
  | unrecognized
deriving DecidableEq, Repr

/-- Caret upper bound computed at lines 548-553: `(major+1,0,0)` when
`major > 0`, `(0,minor+1,0)` when `major = 0 < minor`, otherwise
`(0,0,patch+1)`. -/
def caretUpper (b : Version) : Version :=
  if 0 < b.major then ⟨b.major + 1, 0, 0⟩
  else if 0 < b.minor then ⟨0, b.minor + 1, 0⟩
  else ⟨0, 0, b.patch + 1⟩

/-- `_pick_solc_for_pragma(pragma_expr, installed, max_solc)`
(lines 512-573).

* line 515-516: empty expression or empty installed list returns `None`
  (an empty expression is an `unrecognized` shape here);
* line 518: `inst_all = sorted(installed, key=_vtuple)` — Python's
  stable sort, embedded as Mathlib's stable `insertionSort`;
* lines 522-529: when `max_solc` parses as `x.y.z` (well-formedness is
  built into `Option Version`), restrict to versions `<= max_solc`, but
  keep the unrestricted list when that leaves no candidate;
* lines 532-535: the exact branch tests membership in `installed`
  (not in the capped `inst`) and returns the version itself;
* lines 538-556: caret branch filters `inst` to `[base, upper)` and
  returns the last (= largest, `cand[-1]`) candidate;
* lines 559-564: range branch filters `inst` to `[lo, hi)`;
* lines 567-571: lower-bound branch filters `inst` to `[lo, ∞)`;
* line 573: every other shape yields `None`. -/
def pickSolcForPragma (expr : ConstraintExpr) (installed : List Version)
    (maxSolc : Option Version) : Option Version :=
  if expr = .unrecognized ∨ installed = [] then none
  else
    let instAll := List.insertionSort vle installed
    let inst :=
      match maxSolc with
      | none => instAll
      | some mt =>
        let capped := instAll.filter (fun v => decide (vle v mt))
        if capped = [] then instAll else capped
    match expr with
    | .exact v => if v ∈ installed then some v else none
    | .caret base =>
        (inst.filter (fun v => decide (vle base v) && decide (vlt v (caretUpper base)))).getLast?
    | .range lo hi =>
        (inst.filter (fun v => decide (vle lo v) && decide (vlt v hi))).getLast?
    | .lower lo =>
        (inst.filter (fun v => decide (vle lo v))).getLast?
    | .unrecognized => none

/-- The mathematically defined satisfying range of each supported
constraint shape, taken from the specification's words (caret:
`[x.y.z,(x+1).0.0)` for `major>0`, `[0.minor.z,0.(minor+1).0)` for
`major=0<minor`, `[0.0.z,0.0.(z+1))` for `major=minor=0`). -/
def specSatisfies (expr : ConstraintExpr) (v : Version) : Prop :=
  match expr with
  | .exact e => v = e
  | .caret base => vle base v ∧ vlt v (caretUpper base)
  | .range lo hi => vle lo v ∧ vlt v hi
  | .lower lo => vle lo v
  | .unrecognized => False

/-! Helper lemmas about the sorted-filter-last pattern the solver uses. -/

theorem vle_getLast_of_sorted :
    ∀ (l : List Version), l.Sorted vle → ∀ v ∈ l, ∀ h : l ≠ [], vle v (l.getLast h)
  | [], _, v, hv, h => absurd rfl h
  | [a], _, v, hv, _ => by
      simp only [List.mem_singleton] at hv
      subst hv; exact vle_refl _
  | a :: b :: t, hs, v, hv, _ => by
      rw [List.sorted_cons] at hs
      rw [List.getLast_cons (by simp)]
      rcases List.mem_cons.1 hv with rfl | hv2
      · exact hs.1 _ (List.getLast_mem _)
      · exact vle_getLast_of_sorted (b :: t) hs.2 v hv2 (by simp)

theorem filter_sort_getLast?_none {p : Version → Bool} {installed : List Version}
    (h : ((List.insertionSort vle installed).filter p).getLast? = none) :
    ∀ v ∈ installed, ¬ p v = true := by
  rw [List.getLast?_eq_none_iff, List.filter_eq_nil_iff] at h
  intro v hv
  exact h v ((List.mem_insertionSort vle).2 hv)

theorem filter_sort_getLast?_some {p : Version → Bool} {installed : List Version} {m : Version}
    (h : ((List.insertionSort vle installed).filter p).getLast? = some m) :
    m ∈ installed ∧ p m = true ∧ ∀ v ∈ installed, p v = true → vle v m := by
  have hmem : m ∈ (List.insertionSort vle installed).filter p :=
    List.mem_of_getLast?_eq_some h
  have hm := List.mem_filter.1 hmem
  refine ⟨(List.mem_insertionSort vle).1 hm.1, hm.2, ?_⟩
  intro v hv hpv
  have hsorted : ((List.insertionSort vle installed).filter p).Sorted vle :=
    (List.sorted_insertionSort vle installed).filter p
  have hne : (List.insertionSort vle installed).filter p ≠ [] := by
    intro hnil; rw [hnil] at h; simp at h
  have hvmem : v ∈ (List.insertionSort vle installed).filter p :=
    List.mem_filter.2 ⟨(List.mem_insertionSort vle).2 hv, hpv⟩
  have hlast := vle_getLast_of_sorted _ hsorted v hvmem hne
  rw [List.getLast?_eq_getLast _ hne, Option.some_inj] at h
  rwa [h] at hlast

end Harness

open Harness

/-- C1: with no ceiling, `_pick_solc_for_pragma` on any supported
constraint shape (exact, caret, range, lower bound) returns `none`
exactly when no installed version satisfies the expression's
mathematically defined range, and otherwise returns a member of the
installed set that lies inside the range and is the maximum installed
version satisfying it. -/
theorem pick_solc_no_ceiling_returns_max_satisfying
    (expr : ConstraintExpr) (installed : List Version)
    (hsupp : expr ≠ ConstraintExpr.unrecognized) :
    (pickSolcForPragma expr installed none = none →
      ∀ v ∈ installed, ¬ specSatisfies expr v) ∧
    (∀ m, pickSolcForPragma expr installed none = some m →
      m ∈ installed ∧ specSatisfies expr m ∧
        ∀ v ∈ installed, specSatisfies expr v → vle v m) := by
  by_cases hinst : installed = []
  · subst hinst
    refine ⟨fun _ v hv => absurd hv (by simp), fun m hm => ?_⟩
    simp [pickSolcForPragma] at hm
  · have hcond : ¬(expr = ConstraintExpr.unrecognized ∨ installed = []) := by
      simp [hsupp, hinst]
    cases expr with
    | exact v =>
        unfold pickSolcForPragma
        rw [if_neg hcond]
        by_cases hv : v ∈ installed
        · simp only [hv, if_true]
          refine ⟨fun hab => by simp at hab, fun m hm => ?_⟩
          rw [Option.some_inj] at hm
          subst hm
          refine ⟨hv, rfl, fun w _ hw => ?_⟩
          simp only [specSatisfies] at hw
          subst hw; exact vle_refl _
        · simp only [hv, if_false]
          refine ⟨fun _ w _ hw => ?_, fun m hm => by simp at hm⟩
          simp only [specSatisfies] at hw
          subst hw; exact hv (by assumption)
    | caret base =>
        unfold pickSolcForPragma
        rw [if_neg hcond]
        dsimp only
        constructor
        · intro hnone v hv hsat
          have hp := filter_sort_getLast?_none hnone v hv
          simp only [specSatisfies] at hsat
          simp [hsat.1, hsat.2] at hp
        · intro m hm
          obtain ⟨h1, h2, h3⟩ := filter_sort_getLast?_some hm
          simp only [Bool.and_eq_true, decide_eq_true_eq] at h2
          refine ⟨h1, h2, fun v hv hsat => ?_⟩
          simp only [specSatisfies] at hsat
          exact h3 v hv (by simp [hsat.1, hsat.2])
    | range lo hi =>
        unfold pickSolcForPragma
        rw [if_neg hcond]
        dsimp only
        constructor
        · intro hnone v hv hsat
          have hp := filter_sort_getLast?_none hnone v hv
          simp only [specSatisfies] at hsat
          simp [hsat.1, hsat.2] at hp
        · intro m hm
          obtain ⟨h1, h2, h3⟩ := filter_sort_getLast?_some hm
          simp only [Bool.and_eq_true, decide_eq_true_eq] at h2
          refine ⟨h1, h2, fun v hv hsat => ?_⟩
          simp only [specSatisfies] at hsat
          exact h3 v hv (by simp [hsat.1, hsat.2])
    | lower lo =>
        unfold pickSolcForPragma
        rw [if_neg hcond]
        dsimp only
        constructor
        · intro hnone v hv hsat
          have hp := filter_sort_getLast?_none hnone v hv
          simp only [specSatisfies] at hsat
          simp [hsat] at hp
        · intro m hm
          obtain ⟨h1, h2, h3⟩ := filter_sort_getLast?_some hm
          simp only [decide_eq_true_eq] at h2
          refine ⟨h1, h2, fun v hv hsat => ?_⟩
          simp only [specSatisfies] at hsat
          exact h3 v hv (by simp [hsat])
    | unrecognized => exact absurd rfl hsupp

/-- C1 witness: `^0.8.0` against installed `{0.8.9, 0.8.19, 0.8.26}`
picks `0.8.26`, which the theorem certifies as the maximum satisfying
installed version. -/
theorem pick_solc_no_ceiling_returns_max_satisfying_witness :
    pickSolcForPragma (ConstraintExpr.caret ⟨0, 8, 0⟩)
      [⟨0, 8, 9⟩, ⟨0, 8, 19⟩, ⟨0, 8, 26⟩] none = some ⟨0, 8, 26⟩ ∧
    (⟨0, 8, 26⟩ : Version) ∈ [(⟨0, 8, 9⟩ : Version), ⟨0, 8, 19⟩, ⟨0, 8, 26⟩] ∧
    specSatisfies (ConstraintExpr.caret ⟨0, 8, 0⟩) ⟨0, 8, 26⟩ := by
  have h := pick_solc_no_ceiling_returns_max_satisfying
    (ConstraintExpr.caret ⟨0, 8, 0⟩) [⟨0, 8, 9⟩, ⟨0, 8, 19⟩, ⟨0, 8, 26⟩]
    (by decide)
  have hpick : pickSolcForPragma (ConstraintExpr.caret ⟨0, 8, 0⟩)
      [⟨0, 8, 9⟩, ⟨0, 8, 19⟩, ⟨0, 8, 26⟩] none = some ⟨0, 8, 26⟩ := by decide
  obtain ⟨hmem, hsat, _⟩ := h.2 _ hpick
  exact ⟨hpick, hmem, hsat⟩

namespace Harness

/-- The caret, range and lower-bound shapes: the branches of
`_pick_solc_for_pragma` that draw candidates from the capped pool
`inst` (lines 538-571), unlike the exact branch (lines 532-535), which
tests membership in the uncapped `installed` list. -/
def isBroadShape : ConstraintExpr → Bool
  | .caret _ => true
  | .range _ _ => true
  | .lower _ => true
  | _ => false

theorem mem_of_filter_getLast?_some {p : Version → Bool} {l : List Version} {m : Version}
    (h : (l.filter p).getLast? = some m) : m ∈ l :=
  List.mem_of_mem_filter (List.mem_of_getLast?_eq_some h)

end Harness

/-- C2 counterexample: for the exact shape the ceiling is ignored.
With installed `{0.4.0, 0.8.9}` and ceiling `0.5.0` (so at least one
installed version is `<=` the ceiling), the expression `=0.8.9` still
returns `0.8.9`, which is above the ceiling — refuting the claim that
any returned version is then `<=` the ceiling. -/
theorem pick_solc_ceiling_exact_counterexample :
    pickSolcForPragma (ConstraintExpr.exact ⟨0, 8, 9⟩)
      [⟨0, 4, 0⟩, ⟨0, 8, 9⟩] (some ⟨0, 5, 0⟩) = some ⟨0, 8, 9⟩ ∧
    vle ⟨0, 4, 0⟩ ⟨0, 5, 0⟩ ∧ ¬ vle ⟨0, 8, 9⟩ ⟨0, 5, 0⟩ := by decide

/-- C2 amended: when a ceiling is given, the caret, range and
lower-bound branches of `_pick_solc_for_pragma` draw candidates from
the pool restricted to installed versions `<=` the ceiling (the
restriction being dropped only when it would empty the pool), so
whenever at least one installed version is `<=` the ceiling any version
those branches return is `<=` the ceiling; the exact branch, however,
ignores the ceiling entirely and behaves as if none were given. -/
theorem pick_solc_ceiling_amended :
    (∀ (expr : ConstraintExpr) (installed : List Version) (mt : Version),
      isBroadShape expr = true →
      (∃ v ∈ installed, vle v mt) →
      ∀ m, pickSolcForPragma expr installed (some mt) = some m → vle m mt) ∧
    (∀ (v : Version) (installed : List Version) (mt : Version),
      pickSolcForPragma (ConstraintExpr.exact v) installed (some mt) =
        pickSolcForPragma (ConstraintExpr.exact v) installed none) := by
  constructor
  · intro expr installed mt hbroad hex m hm
    by_cases hinst : installed = []
    · subst hinst
      obtain ⟨v, hv, _⟩ := hex
      exact absurd hv (by simp)
    · obtain ⟨v, hv, hvle⟩ := hex
      have hcond : ¬(expr = ConstraintExpr.unrecognized ∨ installed = []) := by
        cases expr <;> simp_all [isBroadShape]
      have hcap : (List.insertionSort vle installed).filter
          (fun w => decide (vle w mt)) ≠ [] := by
        intro hnil
        rw [List.filter_eq_nil_iff] at hnil
        exact hnil v ((List.mem_insertionSort vle).2 hv) (by simp [hvle])
      cases expr with
      | exact _ => simp [isBroadShape] at hbroad
      | unrecognized => simp [isBroadShape] at hbroad
      | caret base =>
          unfold pickSolcForPragma at hm
          rw [if_neg hcond] at hm
          dsimp only at hm
          rw [if_neg hcap] at hm
          have := List.mem_filter.1 (mem_of_filter_getLast?_some hm)
          simpa using this.2
      | range lo hi =>
          unfold pickSolcForPragma at hm
          rw [if_neg hcond] at hm
          dsimp only at hm
          rw [if_neg hcap] at hm
          have := List.mem_filter.1 (mem_of_filter_getLast?_some hm)
          simpa using this.2
      | lower lo =>
          unfold pickSolcForPragma at hm
          rw [if_neg hcond] at hm
          dsimp only at hm
          rw [if_neg hcap] at hm
          have := List.mem_filter.1 (mem_of_filter_getLast?_some hm)
          simpa using this.2
  · intro v installed mt
    by_cases hinst : installed = []
    · subst hinst; rfl
    · have hcond : ¬((ConstraintExpr.exact v) = ConstraintExpr.unrecognized ∨
          installed = []) := by simp [hinst]
      unfold pickSolcForPragma
      rw [if_neg hcond]

/-- C2 amended witness: `^0.8.0` with installed `{0.8.9, 0.8.19,
0.8.26}` and ceiling `0.8.19` picks `0.8.19`, which the theorem
certifies as below the ceiling; and `=0.8.9` with ceiling `0.5.0`
behaves exactly as with no ceiling. -/
theorem pick_solc_ceiling_amended_witness :
    vle ⟨0, 8, 19⟩ ⟨0, 8, 19⟩ ∧
    pickSolcForPragma (ConstraintExpr.exact ⟨0, 8, 9⟩)
      [⟨0, 4, 0⟩, ⟨0, 8, 9⟩] (some ⟨0, 5, 0⟩) =
      pickSolcForPragma (ConstraintExpr.exact ⟨0, 8, 9⟩)
        [⟨0, 4, 0⟩, ⟨0, 8, 9⟩] none := by
  refine ⟨?_, pick_solc_ceiling_amended.2 ⟨0, 8, 9⟩ [⟨0, 4, 0⟩, ⟨0, 8, 9⟩] ⟨0, 5, 0⟩⟩
  exact pick_solc_ceiling_amended.1 (ConstraintExpr.caret ⟨0, 8, 0⟩)
    [⟨0, 8, 9⟩, ⟨0, 8, 19⟩, ⟨0, 8, 26⟩] ⟨0, 8, 19⟩ (by decide)
    ⟨⟨0, 8, 9⟩, by decide, by decide⟩ ⟨0, 8, 19⟩ (by decide)

namespace Harness

/-! ### String helpers and `classify_err_tail` (lines 712-761)

Python `s.lower()` is embedded with `Char.toLower` (ASCII case
folding; every pattern the classifier matches is ASCII).  The substring
test `needle in hay` is embedded as list-infix on the character data. -/

/-- Python `s.lower()` (ASCII range). -/
def lowerStr (s : String) : String := ⟨s.data.map Char.toLower⟩

/-- Python `needle in hay` substring containment. -/
def strIn (needle hay : String) : Prop := needle.data <:+: hay.data

instance (n h : String) : Decidable (strIn n h) := List.decidableInfix n.data h.data

/-- `classify_err_tail(err_tail)` (lines 712-761), branch by branch in
source order.  The `"✅"` test (line 723) runs on the original string;
all other patterns match against the lowercased `t`. -/
def classifyErrTail (errTail : String) : String :=
  let t := lowerStr errTail
  if t.data = [] then "no_output"
  else if strIn "✅" errTail then "ok"
  else if (strIn "@openzeppelin" t ∨ strIn "openzeppelin" t) ∧
      (strIn "file not found" t ∨ (strIn "source" t ∧ strIn "not found" t) ∨
        (strIn "not found" t ∧ strIn "import" t)) then "openzeppelin_import"
  else if strIn "file not found" t ∨ (strIn "not found" t ∧ strIn "import" t) then
    "missing_import"
  else if strIn "source" t ∧ strIn "not found" t then "missing_import"
  else if strIn "parsererror" t ∧ strIn "source" t ∧ strIn "not found" t then
    "missing_import"
  else if strIn "@openzeppelin" t ∨ strIn "openzeppelin" t then "openzeppelin_import"
  else if strIn "pragma" t ∧ (strIn "requires different compiler version" t ∨
      strIn "compiler version" t) then "solc_version_mismatch"
  else if strIn "solc" t ∧ strIn "version" t ∧ strIn "not installed" t then "solc_missing"
  else if strIn "invalid option to --combined-json" t ∧ strIn "compact-format" t then
    "solc_combined_json_flag"
  else if strIn "unknown file" t ∧ strIn "contract.sol" t then "crytic_unknown_file"
  else if strIn "slither" t ∧ (strIn "error" t ∨ strIn "exception" t) then "slither_error"
  else "other"

/-- The closed error taxonomy of the specification: values of
`classify_err_tail` plus the classes assigned directly by `main`
(`skip_old_pragma` line 881, `skip_missing_exact_solc` line 923,
`exception` line 1039, `ok` line 1013). -/
def errTaxonomy : List String :=
  ["ok", "no_output", "missing_import", "openzeppelin_import",
   "solc_version_mismatch", "solc_missing", "solc_combined_json_flag",
   "crytic_unknown_file", "slither_error", "skip_old_pragma",
   "skip_missing_exact_solc", "exception", "other"]

/-- The unresolved-OpenZeppelin-import stderr pattern named by the
claim. -/
def ozNotFoundMsg : String := "\"@openzeppelin/contracts/access/Ownable.sol\" not found"

theorem mem_ite {c : Prop} [Decidable c] {a b : String} {S : List String}
    (ha : a ∈ S) (hb : b ∈ S) : (if c then a else b) ∈ S := by
  by_cases h : c <;> simp [h, ha, hb]

end Harness

/-- C7 counterexample: a stderr string that contains the
OpenZeppelin-not-found substring but also contains `"✅"` is classified
as `"ok"` (line 723-724 fires first), not as `"openzeppelin_import"` —
refuting the claim for arbitrary input strings containing the
substring. -/
theorem classify_err_tail_oz_counterexample :
    strIn ozNotFoundMsg ("✅ " ++ ozNotFoundMsg) ∧
    classifyErrTail ("✅ " ++ ozNotFoundMsg) = "ok" ∧
    classifyErrTail ("✅ " ++ ozNotFoundMsg) ≠ "openzeppelin_import" := by decide

/-- C7 amended: every input string that contains the substring
`"@openzeppelin/contracts/access/Ownable.sol" not found` and does not
contain the success marker `"✅"` is classified `"openzeppelin_import"`
(never the generic `"missing_import"`); and every input string is
classified into the closed taxonomy set. -/
theorem classify_err_tail_oz_and_taxonomy :
    (∀ s : String, strIn ozNotFoundMsg s → ¬ strIn "✅" s →
      classifyErrTail s = "openzeppelin_import") ∧
    (∀ s : String, classifyErrTail s ∈ errTaxonomy) := by
  constructor
  · intro s hsub hok
    have hmap : (lowerStr ozNotFoundMsg).data <:+: (lowerStr s).data :=
      List.IsInfix.map Char.toLower hsub
    have hoz : strIn "@openzeppelin" (lowerStr s) :=
      List.IsInfix.trans (by decide : strIn "@openzeppelin" (lowerStr ozNotFoundMsg)) hmap
    have hnf : strIn "not found" (lowerStr s) :=
      List.IsInfix.trans (by decide : strIn "not found" (lowerStr ozNotFoundMsg)) hmap
    have ht_ne : ¬((lowerStr s).data = []) := by
      intro h
      exact (List.IsInfix.ne_nil hmap (by decide)) h
    unfold classifyErrTail
    dsimp only
    rw [if_neg ht_ne, if_neg hok]
    by_cases hB : strIn "file not found" (lowerStr s) ∨
        (strIn "source" (lowerStr s) ∧ strIn "not found" (lowerStr s)) ∨
        (strIn "not found" (lowerStr s) ∧ strIn "import" (lowerStr s))
    · rw [if_pos ⟨Or.inl hoz, hB⟩]
    · have hfnf : ¬ strIn "file not found" (lowerStr s) := fun h => hB (Or.inl h)
      have hsrc : ¬(strIn "source" (lowerStr s) ∧ strIn "not found" (lowerStr s)) :=
        fun h => hB (Or.inr (Or.inl h))
      have himp : ¬(strIn "not found" (lowerStr s) ∧ strIn "import" (lowerStr s)) :=
        fun h => hB (Or.inr (Or.inr h))
      rw [if_neg (fun hc => hB hc.2)]
      rw [if_neg (fun hc => hc.elim hfnf himp)]
      rw [if_neg hsrc]
      rw [if_neg (fun hc => hsrc hc.2)]
      rw [if_pos (Or.inl hoz)]
  · intro s
    unfold classifyErrTail
    dsimp only
    exact mem_ite (by decide) (mem_ite (by decide) (mem_ite (by decide)
      (mem_ite (by decide) (mem_ite (by decide) (mem_ite (by decide)
      (mem_ite (by decide) (mem_ite (by decide) (mem_ite (by decide)
      (mem_ite (by decide) (mem_ite (by decide) (mem_ite (by decide)
      (by decide))))))))))))

/-- C7 amended witness: the bare OpenZeppelin-not-found message itself
classifies as `"openzeppelin_import"`, and an arbitrary string lands in
the taxonomy. -/
theorem classify_err_tail_oz_and_taxonomy_witness :
    classifyErrTail ozNotFoundMsg = "openzeppelin_import" ∧
    classifyErrTail "segmentation fault" ∈ errTaxonomy :=
  ⟨classify_err_tail_oz_and_taxonomy.1 ozNotFoundMsg (by decide) (by decide),
   classify_err_tail_oz_and_taxonomy.2 "segmentation fault"⟩

namespace Harness

/-! ### `tail` and `proc_tail` (lines 115-126)

Python `str.strip()` with no argument removes leading and trailing
whitespace; the whitespace set is embedded for the ASCII range.
`str.replace("\n", " ")` with a one-character needle is a character
map.  `s[-n:]` keeps the last `n` characters. -/

/-- The characters Python `str.strip()` removes (ASCII range). -/
def isPyWs (c : Char) : Bool :=
  c = ' ' || c = '\t' || c = '\n' || c = '\r' || c = '\x0b' || c = '\x0c'

/-- `s.strip()` on character data. -/
def stripList (l : List Char) : List Char :=
  ((l.dropWhile isPyWs).reverse.dropWhile isPyWs).reverse

/-- Python `s.strip()`. -/
def pyStrip (s : String) : String := ⟨stripList s.data⟩

/-- `tail(s, n)` (lines 115-117): strip, replace newlines by spaces,
keep the last `n` characters when longer than `n`. -/
def tailF (s : String) (n : Nat) : String :=
  let d := (stripList s.data).map (fun c => if c = '\n' then ' ' else c)
  if n < d.length then ⟨d.drop (d.length - n)⟩ else ⟨d⟩

/-- Decimal digit characters of `n`, most significant first, with
structural fuel (`n + 1` suffices since `n / 10` shrinks). -/
def natDigitsAux (fuel n : Nat) : List Char :=
  match fuel with
  | 0 => []
  | f + 1 => if n = 0 then [] else natDigitsAux f (n / 10) ++ [Nat.digitChar (n % 10)]

/-- Python `str(n)` for a natural number. -/
def natStr (n : Nat) : String := if n = 0 then "0" else ⟨natDigitsAux (n + 1) n⟩

/-- Python `str(i)` for an integer (`f"...{returncode}"` rendering). -/
def intStr (i : Int) : String := if i < 0 then "-" ++ natStr i.natAbs else natStr i.natAbs

/-- `proc_tail(stdout, stderr, returncode)` (lines 120-126) at the
default width `n = 700` used by `main` (line 1012): prefer the stripped
stderr, then the stripped stdout, then the `(no output)` placeholder,
and pass the choice through `tail`. -/
def procTail (stdout stderr : String) (returncode : Int) : String :=
  let out1 := pyStrip stderr
  let out2 := if out1.data = [] then pyStrip stdout else out1
  let out3 := if out2.data = [] then "(no output) returncode=" ++ intStr returncode else out2
  tailF out3 700

/-! Support lemmas for `tail` and `proc_tail`. -/

theorem dropWhile_dropWhile (p : Char → Bool) (l : List Char) :
    (l.dropWhile p).dropWhile p = l.dropWhile p := by
  have h := List.head?_dropWhile_not p l
  cases hd : (l.dropWhile p).head? with
  | none => rw [List.head?_eq_none_iff.1 hd]; rfl
  | some a =>
      rw [hd] at h
      cases hcons : l.dropWhile p with
      | nil => rfl
      | cons x t =>
          rw [hcons] at hd
          simp only [List.head?_cons, Option.some_inj] at hd
          subst hd
          exact List.dropWhile_cons_of_neg (by simp [h])

theorem stripList_head?_not (l : List Char) :
    ∀ a, (stripList l).head? = some a → isPyWs a = false := by
  intro a ha
  have hpre : stripList l <+: l.dropWhile isPyWs := by
    have := List.dropWhile_suffix (l := (l.dropWhile isPyWs).reverse) isPyWs
    have h2 : ((l.dropWhile isPyWs).reverse.dropWhile isPyWs).reverse <+:
        (l.dropWhile isPyWs).reverse.reverse := by
      rw [List.reverse_prefix]
      simpa using this
    simpa [stripList] using h2
  obtain ⟨t, ht⟩ := hpre
  cases hcons : stripList l with
  | nil => rw [hcons] at ha; simp at ha
  | cons x r =>
      rw [hcons] at ha ht
      simp only [List.head?_cons, Option.some_inj] at ha
      subst ha
      have hmain := List.head?_dropWhile_not isPyWs l
      rw [← ht] at hmain
      simpa using hmain

theorem stripList_getLast?_not (l : List Char) :
    ∀ a, (stripList l).getLast? = some a → isPyWs a = false := by
  intro a ha
  rw [List.getLast?_eq_head?_reverse] at ha
  have hrev : (stripList l).reverse = (l.dropWhile isPyWs).reverse.dropWhile isPyWs := by
    simp [stripList]
  rw [hrev] at ha
  have hmain := List.head?_dropWhile_not isPyWs (l.dropWhile isPyWs).reverse
  rw [ha] at hmain
  exact hmain

theorem stripList_eq_self {l : List Char}
    (h1 : ∀ a, l.head? = some a → isPyWs a = false)
    (h2 : ∀ a, l.getLast? = some a → isPyWs a = false) :
    stripList l = l := by
  have hfront : l.dropWhile isPyWs = l := by
    cases hl : l with
    | nil => rfl
    | cons x t =>
        exact List.dropWhile_cons_of_neg (by simp [h1 x (by rw [hl]; rfl)])
  have hback : l.reverse.dropWhile isPyWs = l.reverse := by
    cases hl : l.reverse with
    | nil => rfl
    | cons x t =>
        have : l.getLast? = some x := by
          rw [List.getLast?_eq_head?_reverse, hl]; rfl
        exact List.dropWhile_cons_of_neg (by simp [h2 x this])
  simp [stripList, hfront, hback]

theorem stripList_idem (l : List Char) : stripList (stripList l) = stripList l :=
  stripList_eq_self (stripList_head?_not l) (stripList_getLast?_not l)

theorem mem_natDigitsAux_plain :
    ∀ (fuel n : Nat), ∀ c ∈ natDigitsAux fuel n, isPyWs c = false ∧ ¬ c = '\n' := by
  intro fuel
  induction fuel with
  | zero => intro n c hc; simp [natDigitsAux] at hc
  | succ f ih =>
      intro n c hc
      unfold natDigitsAux at hc
      by_cases hn : n = 0
      · simp [hn] at hc
      · rw [if_neg hn] at hc
        rcases List.mem_append.1 hc with h | h
        · exact ih _ c h
        · simp only [List.mem_singleton] at h
          subst h
          have h10 : n % 10 < 10 := Nat.mod_lt _ (by omega)
          interval_cases h : n % 10 <;> decide

theorem natDigitsAux_length :
    ∀ (fuel n k : Nat), n < 10 ^ k → (natDigitsAux fuel n).length ≤ k := by
  intro fuel
  induction fuel with
  | zero => intro n k _; simp [natDigitsAux]
  | succ f ih =>
      intro n k hk
      unfold natDigitsAux
      by_cases hn : n = 0
      · simp [hn]
      · rw [if_neg hn]
        cases k with
        | zero => simp at hk; omega
        | succ k =>
            have hdiv : n / 10 < 10 ^ k := by
              rw [Nat.div_lt_iff_lt_mul (by omega)]
              calc n < 10 ^ (k + 1) := hk
                _ = 10 ^ k * 10 := by ring
            have := ih (n / 10) k hdiv
            simp only [List.length_append, List.length_singleton]
            omega

theorem natStr_chars (n : Nat) :
    ∀ c ∈ (natStr n).data, isPyWs c = false ∧ ¬ c = '\n' := by
  intro c hc
  unfold natStr at hc
  by_cases hn : n = 0
  · simp [hn] at hc; subst hc; decide
  · rw [if_neg hn] at hc
    exact mem_natDigitsAux_plain (n + 1) n c hc

theorem intStr_chars (i : Int) :
    ∀ c ∈ (intStr i).data, isPyWs c = false ∧ ¬ c = '\n' := by
  intro c hc
  unfold intStr at hc
  by_cases hi : i < 0
  · rw [if_pos hi] at hc
    rw [String.data_append] at hc
    rcases List.mem_append.1 hc with h | h
    · simp only [show ("-" : String).data = ['-'] from rfl, List.mem_singleton] at h
      subst h; decide
    · exact natStr_chars _ c h
  · rw [if_neg hi] at hc
    exact natStr_chars _ c hc

theorem intStr_ne_nil (i : Int) : (intStr i).data ≠ [] := by
  unfold intStr
  by_cases hi : i < 0
  · rw [if_pos hi, String.data_append]
    simp [show ("-" : String).data = ['-'] from rfl]
  · rw [if_neg hi]
    unfold natStr
    by_cases hn : i.natAbs = 0
    · simp [hn]
    · rw [if_neg hn]
      show (natDigitsAux (i.natAbs + 1) i.natAbs) ≠ []
      unfold natDigitsAux
      rw [if_neg hn]
      simp

theorem natStr_length {n k : Nat} (h : n < 10 ^ k) (hk : 1 ≤ k) :
    (natStr n).data.length ≤ k := by
  unfold natStr
  by_cases hn : n = 0
  · simp [hn]; omega
  · rw [if_neg hn]
    exact natDigitsAux_length (n + 1) n k h

theorem intStr_length {i : Int} {k : Nat} (h : i.natAbs < 10 ^ k) (hk : 1 ≤ k) :
    (intStr i).data.length ≤ k + 1 := by
  unfold intStr
  by_cases hi : i < 0
  · rw [if_pos hi, String.data_append]
    have hlen := natStr_length h hk
    simp only [List.length_append, show ("-" : String).data = ['-'] from rfl,
      List.length_singleton]
    omega
  · rw [if_neg hi]
    exact Nat.le_succ_of_le (natStr_length h hk)

theorem tailF_length_le (s : String) (n : Nat) : (tailF s n).data.length ≤ n := by
  unfold tailF
  dsimp only
  by_cases h : n < ((stripList s.data).map (fun c => if c = '\n' then ' ' else c)).length
  · rw [if_pos h]
    simp only [List.length_drop]
    omega
  · rw [if_neg h]
    exact Nat.le_of_not_lt h

theorem tailF_no_newline (s : String) (n : Nat) :
    ∀ c ∈ (tailF s n).data, ¬ c = '\n' := by
  intro c hc
  unfold tailF at hc
  dsimp only at hc
  have hmap : c ∈ (stripList s.data).map (fun c => if c = '\n' then ' ' else c) := by
    by_cases h : n < ((stripList s.data).map (fun c => if c = '\n' then ' ' else c)).length
    · rw [if_pos h] at hc
      exact List.mem_of_mem_drop hc
    · rw [if_neg h] at hc
      exact hc
  obtain ⟨x, _, hx⟩ := List.mem_map.1 hmap
  by_cases hxn : x = '\n'
  · rw [hxn] at hx; simp at hx; rw [← hx]; decide
  · rw [if_neg hxn] at hx; rw [← hx]; exact hxn

theorem map_newline_noop {l : List Char} (h : ∀ c ∈ l, ¬ c = '\n') :
    l.map (fun c => if c = '\n' then ' ' else c) = l := by
  rw [List.map_congr_left (fun a ha => if_neg (h a ha))]
  exact List.map_id l

theorem tailF_eq_self {s : String}
    (hhead : ∀ a, s.data.head? = some a → isPyWs a = false)
    (hlast : ∀ a, s.data.getLast? = some a → isPyWs a = false)
    (hnl : ∀ c ∈ s.data, ¬ c = '\n') (hlen : s.data.length ≤ 700) :
    tailF s 700 = s := by
  unfold tailF
  dsimp only
  rw [stripList_eq_self hhead hlast, map_newline_noop hnl, if_neg (by omega)]

end Harness

/-- C10 counterexample: with a whitespace-only (hence non-empty) stderr
and a non-empty stdout, `proc_tail` returns the stdout tail, not
anything derived from stderr — refuting "derived from stderr when
stderr is non-empty" (line 121-123 tests the *stripped* stderr). -/
theorem proc_tail_stderr_counterexample :
    (" " : String) ≠ "" ∧ procTail "boom" " " 0 = "boom" ∧ tailF " " 700 = "" := by
  decide

/-- C10 amended: the `err_tail` produced by `proc_tail` is at most 700
characters and newline-free; it is the `tail` of stderr when stderr
strips to something non-empty, otherwise the `tail` of stdout when that
strips to something non-empty, and when both stdout and stderr are
empty it is the placeholder `"(no output) returncode=N"` (for any
returncode of fewer than 600 digits). -/
theorem proc_tail_amended :
    (∀ (so se : String) (rc : Int), (procTail so se rc).data.length ≤ 700 ∧
      ∀ c ∈ (procTail so se rc).data, ¬ c = '\n') ∧
    (∀ (so se : String) (rc : Int), (pyStrip se).data ≠ [] →
      procTail so se rc = tailF se 700) ∧
    (∀ (so se : String) (rc : Int), (pyStrip se).data = [] →
      (pyStrip so).data ≠ [] → procTail so se rc = tailF so 700) ∧
    (∀ rc : Int, rc.natAbs < 10 ^ 600 →
      procTail "" "" rc = "(no output) returncode=" ++ intStr rc) := by
  refine ⟨?_, ?_, ?_, ?_⟩
  · intro so se rc
    constructor
    · unfold procTail
      dsimp only
      exact tailF_length_le _ 700
    · unfold procTail
      dsimp only
      exact tailF_no_newline _ 700
  · intro so se rc hne
    unfold procTail
    dsimp only
    rw [if_neg hne, if_neg hne]
    unfold tailF
    dsimp only
    rw [show (pyStrip se).data = stripList se.data from rfl, stripList_idem]
  · intro so se rc hse hso
    unfold procTail
    dsimp only
    rw [if_pos hse, if_neg hso]
    unfold tailF
    dsimp only
    rw [show (pyStrip so).data = stripList so.data from rfl, stripList_idem]
  · intro rc hrc
    have h0 : (pyStrip "").data = [] := rfl
    unfold procTail
    dsimp only
    rw [if_pos h0, if_pos h0]
    have hdata : ("(no output) returncode=" ++ intStr rc).data =
        ("(no output) returncode=" : String).data ++ (intStr rc).data :=
      String.data_append _ _
    refine tailF_eq_self ?_ ?_ ?_ ?_
    · intro a ha
      rw [hdata] at ha
      rw [show (("(no output) returncode=" : String).data ++ (intStr rc).data).head?
          = some '(' from rfl] at ha
      rw [Option.some_inj] at ha
      subst ha; decide
    · intro a ha
      rw [hdata, List.getLast?_append] at ha
      have hne := intStr_ne_nil rc
      cases hl : (intStr rc).data.getLast? with
      | none => exact absurd (List.getLast?_eq_none_iff.1 hl) hne
      | some b =>
          rw [hl] at ha
          simp only [Option.or_some, Option.some_inj] at ha
          subst ha
          exact (intStr_chars rc b (List.mem_of_getLast?_eq_some hl)).1
    · intro c hc
      rw [hdata] at hc
      rcases List.mem_append.1 hc with h | h
      · revert h
        have : ∀ c ∈ ("(no output) returncode=" : String).data, ¬ c = '\n' := by decide
        exact this c
      · exact (intStr_chars rc c h).2
    · rw [hdata, List.length_append]
      have h23 : ("(no output) returncode=" : String).data.length = 23 := by decide
      have hil : (intStr rc).data.length ≤ 601 := intStr_length hrc (by omega)
      omega

/-- C10 amended witness: concrete checks via the theorem — whitespace
stderr falls through to stdout, and the empty/empty case yields the
literal placeholder for returncode `-999`. -/
theorem proc_tail_amended_witness :
    procTail "boom" " " 0 = tailF "boom" 700 ∧
    procTail "" "" (-999) = "(no output) returncode=" ++ intStr (-999) ∧
    (procTail "x" "y" 1).data.length ≤ 700 :=
  ⟨proc_tail_amended.2.2.1 "boom" " " 0 (by decide) (by decide),
   proc_tail_amended.2.2.2 (-999) (by norm_num),
   (proc_tail_amended.1 "x" "y" 1).1⟩

namespace Harness

/-! ### ProgressRecord rows and the analyzer invocation (lines 1007-1040)

One ledger row as appended by `main`; `elapsed_sec` (wall-clock float)
is omitted, no claim depends on it. -/

structure ProgressRecord where
  chain : String
  address : String
  pragma : String
  solc_picked : String
  ok : Nat
  returncode : Int
  json_path : String
  err_tail : String
  err_class : String
deriving DecidableEq, Repr

/-- The `ok` flag computed at line 1009: `1` iff the expected JSON
output file exists and is non-empty after the analyzer subprocess.
The file state at `jout` is modelled as `none` (absent) or
`some content`; byte size `> 0` is content length `> 0`. -/
def okOf (joutContent : Option String) : Nat :=
  match joutContent with
  | some c => if 0 < c.data.length then 1 else 0
  | none => 0

/-- The ProgressRecord appended at lines 1015-1026 after the analyzer
subprocess returns. -/
def analyzeRecordRow (chain address pragmaStr picked joutAbs : String)
    (joutContent : Option String) (stdout stderr : String)
    (returncode : Int) : ProgressRecord :=
  let ok := okOf joutContent
  let errT := procTail stdout stderr returncode
  { chain := chain, address := address, pragma := pragmaStr,
    solc_picked := picked, ok := ok, returncode := returncode,
    json_path := if ok = 1 then joutAbs else "",
    err_tail := errT,
    err_class := if ok = 1 then "ok" else classifyErrTail errT }

/-- File state at the output path after the recording step: lines
1009-1026 only read `jout` (existence and size); the harness never
writes or deletes it, so the state stays exactly what the analyzer
subprocess left there. -/
def joutAfterRecord (joutContent : Option String) : Option String := joutContent

/-- The keyword arguments given to one `subprocess.run` call site. -/
structure SubprocessCall where
  argv : List String
  captureOutput : Bool
  timeoutSec : Option Nat
deriving DecidableEq, Repr

/-- The analyzer invocation at line 1007:
`subprocess.run(cmd, capture_output=True, text=True, env=env, cwd=...)`
— no `timeout` keyword is passed. -/
def slitherRunCall (cmd : List String) : SubprocessCall :=
  { argv := cmd, captureOutput := true, timeoutSec := none }

/-- The `solc-select use` invocation (lines 602-607), bounded by
`timeout=SOLC_SELECT_TIMEOUT`. -/
def solcSelectUseCall (timeoutSec : Nat) (ver : String) : SubprocessCall :=
  { argv := ["solc-select", "use", ver], captureOutput := true,
    timeoutSec := some timeoutSec }

/-- The `solc-select install` invocation (lines 629-634), bounded by
`timeout=SOLC_SELECT_TIMEOUT`. -/
def solcSelectInstallCall (timeoutSec : Nat) (ver : String) : SubprocessCall :=
  { argv := ["solc-select", "install", ver], captureOutput := true,
    timeoutSec := some timeoutSec }

/-- The default `SOLC_SELECT_TIMEOUT` (line 60): 25 seconds. -/
def defaultSolcSelectTimeout : Nat := 25

/-- The record appended by the per-contract `except` handler
(lines 1028-1040): sentinel returncode `-999`, class `"exception"`. -/
def exceptionRow (chain address pragmaStr picked msg : String) : ProgressRecord :=
  { chain := chain, address := address, pragma := pragmaStr,
    solc_picked := picked, ok := 0, returncode := -999, json_path := "",
    err_tail := tailF msg 700, err_class := "exception" }

end Harness

/-- C5 counterexample: when the analyzer leaves a zero-byte file at the
output path, the record gets `ok = 0`, yet the file is left behind
(the harness performs no deletion, lines 1009-1026 only read the
path) — refuting "when ok=0 no artifact file is left behind". -/
theorem artifact_left_behind_counterexample :
    (analyzeRecordRow "ethereum" "0xabc" "^0.8.0" "0.8.26" "/out/x.json"
        (some "") "" "error" 1).ok = 0 ∧
    joutAfterRecord (some "") = some "" ∧
    (some "" : Option String) ≠ none := by decide

/-- C5 amended: `ok = 1` exactly when the expected JSON output file
exists and is non-empty after the analyzer invocation; `ok` does not
depend on the analyzer's returncode (a non-zero exit with a valid JSON
still counts as success); when `ok = 0` the recorded `json_path` is
empty; but the harness does not remove whatever file the analyzer left
at the output path, so a zero-byte or partial artifact persists on
failure. -/
theorem analyze_record_ok_amended :
    (∀ (ch ad pg pk jp : String) (content : Option String) (so se : String) (rc : Int),
      ((analyzeRecordRow ch ad pg pk jp content so se rc).ok = 1 ↔
        ∃ c, content = some c ∧ 0 < c.data.length) ∧
      ((analyzeRecordRow ch ad pg pk jp content so se rc).ok = 0 →
        (analyzeRecordRow ch ad pg pk jp content so se rc).json_path = "") ∧
      joutAfterRecord content = content) ∧
    (∀ (ch ad pg pk jp : String) (content : Option String) (so se : String) (rc rc' : Int),
      (analyzeRecordRow ch ad pg pk jp content so se rc).ok =
        (analyzeRecordRow ch ad pg pk jp content so se rc').ok) := by
  constructor
  · intro ch ad pg pk jp content so se rc
    refine ⟨?_, ?_, rfl⟩
    · unfold analyzeRecordRow okOf
      dsimp only
      cases content with
      | none =>
          constructor
          · intro h0; exact absurd h0 (by decide)
          · rintro ⟨c', hc', _⟩; exact absurd hc' (by simp)
      | some c =>
          dsimp only
          by_cases h : 0 < c.data.length
          · rw [if_pos h]
            exact ⟨fun _ => ⟨c, rfl, h⟩, fun _ => rfl⟩
          · rw [if_neg h]
            constructor
            · intro h0; exact absurd h0 (by decide)
            · rintro ⟨c', hc', hlen⟩
              rw [Option.some_inj] at hc'
              subst hc'
              exact absurd hlen h
    · unfold analyzeRecordRow okOf
      dsimp only
      cases content with
      | none => intro _; rw [if_neg (by decide : ¬(0 : Nat) = 1)]
      | some c =>
          dsimp only
          by_cases h : 0 < c.data.length
          · rw [if_pos h]
            intro h1; exact absurd h1 (by decide)
          · rw [if_neg h]
            intro _; rw [if_neg (by decide : ¬(0 : Nat) = 1)]
  · intro ch ad pg pk jp content so se rc rc'
    rfl

/-- C5 amended witness: a non-empty artifact with a non-zero
returncode still records `ok = 1`, and an `ok = 0` record carries an
empty `json_path`. -/
theorem analyze_record_ok_amended_witness :
    (analyzeRecordRow "ethereum" "0xabc" "" "" "/out/x.json"
        (some "{}") "" "warn" 255).ok = 1 ∧
    (analyzeRecordRow "ethereum" "0xabc" "" "" "/out/x.json"
        none "" "" 0).json_path = "" :=
  ⟨(analyze_record_ok_amended.1 "ethereum" "0xabc" "" "" "/out/x.json"
      (some "{}") "" "warn" 255).1.2 ⟨"{}", rfl, by decide⟩,
   (analyze_record_ok_amended.1 "ethereum" "0xabc" "" "" "/out/x.json"
      none "" "" 0).2.1 (by decide)⟩

/-- C6 counterexample: the analyzer `subprocess.run` call site
(line 1007) passes no `timeout` keyword at all, so the invocation is
not hard-bounded by any timeout. -/
theorem analyzer_call_no_timeout_counterexample :
    (slitherRunCall ["slither", "/w/contract.sol", "--json", "/out/x.json",
      "--disable-color"]).timeoutSec = none := rfl

/-- C6 amended: the compiler install/switch subprocess calls are
hard-bounded by the configured `solc-select` timeout (default 25 s),
but the analyzer subprocess call itself has no timeout; a harness-level
exception during a contract is recorded with the sentinel returncode
`-999` and the distinct class `"exception"` rather than an ordinary
process returncode. -/
theorem analyzer_timeout_amended :
    (∀ cmd, (slitherRunCall cmd).timeoutSec = none) ∧
    (∀ t v, (solcSelectUseCall t v).timeoutSec = some t ∧
      (solcSelectInstallCall t v).timeoutSec = some t) ∧
    defaultSolcSelectTimeout = 25 ∧
    (∀ ch ad pg pk msg, (exceptionRow ch ad pg pk msg).returncode = -999 ∧
      (exceptionRow ch ad pg pk msg).err_class = "exception") :=
  ⟨fun _ => rfl, fun _ _ => ⟨rfl, rfl⟩, rfl, fun _ _ _ _ _ => ⟨rfl, rfl⟩⟩

namespace Harness

/-! ### The batch loop of `main` (lines 767-1072)

Cache files are enumerated as `(chain, address)` pairs — in the source
these are derived from the file path (`f.parent.name.strip().lower()`,
`f.stem.strip().lower()`, lines 853-854); the derivation is elided and
the pairs themselves are the loop input.  The per-contract outcome
(pragma extraction, solc pick, analyzer run) is abstracted as an
`outcome` function, since every branch of the loop body appends exactly
one row carrying the loop's own `chain`/`address` fields (lines
871-882, 910-924, 1015-1026, 1029-1040). -/

/-- The ledger key `f"{chain}|{address}"` (line 855, and lines 838-839
for loaded rows). -/
def recKey (chain address : String) : String := chain ++ "|" ++ address

/-- Key of a ledger row. -/
def rowKey (r : ProgressRecord) : String := recKey r.chain r.address

/-- The in-memory ledger loaded from the progress CSV (lines 814-845):
under retry-mode only rows with `ok == 1` are kept (lines 834-835).
The `err_class` backfill (lines 818-830) rewrites only the `err_class`
column of existing rows, touching no key, and is elided. -/
def loadLedger (prev : List ProgressRecord) (retryFailed : Bool) : List ProgressRecord :=
  if retryFailed then prev.filter (fun r => r.ok == 1) else prev

/-- State of the per-contract loop: accumulated `rows`, the `done` key
set, and — for specification purposes — the keys that actually reached
the processing path this run. -/
structure OrchSt where
  rows : List ProgressRecord
  done : List String
  processed : List String

/-- The row appended for a processed `(chain, address)`: whatever the
per-contract outcome is, every append site writes the loop's own
`chain` and `address` fields (first two entries of each dict literal,
e.g. lines 1016-1017). -/
def mkRow (c a : String) (r : ProgressRecord) : ProgressRecord :=
  { r with chain := c, address := a }

theorem rowKey_mkRow (c a : String) (r : ProgressRecord) :
    rowKey (mkRow c a r) = recKey c a := rfl

/-- One iteration of `for f in files` (lines 852-1043): a key already
in `done` is skipped (lines 856-857); otherwise the contract is
processed, exactly one row with its chain/address is appended, and the
key enters `done` (lines 883, 925, 1043). -/
def stepContract (outcome : String → String → ProgressRecord)
    (st : OrchSt) (f : String × String) : OrchSt :=
  let k := recKey f.1 f.2
  if k ∈ st.done then st
  else
    { rows := st.rows ++ [mkRow f.1 f.2 (outcome f.1 f.2)],
      done := st.done ++ [k],
      processed := st.processed ++ [k] }

/-- The whole run loop (lines 847-1054): start from the loaded ledger
with `done` = its key set (lines 837-845), then fold over the
enumerated cache files. -/
def runLoop (prev : List ProgressRecord) (retryFailed : Bool)
    (outcome : String → String → ProgressRecord)
    (files : List (String × String)) : OrchSt :=
  let start := loadLedger prev retryFailed
  files.foldl (stepContract outcome)
    { rows := start, done := start.map rowKey, processed := [] }

/-- Loop invariant: row keys stay duplicate-free, `done` tracks exactly
the row keys, the initially-done keys stay in `done`, and no processed
key was initially done. -/
def OrchInv (d0 : List String) (st : OrchSt) : Prop :=
  (st.rows.map rowKey).Nodup ∧
  (∀ k, k ∈ st.done ↔ k ∈ st.rows.map rowKey) ∧
  (∀ k ∈ d0, k ∈ st.done) ∧
  (∀ k ∈ st.processed, k ∉ d0)

theorem stepContract_inv (outcome : String → String → ProgressRecord)
    (d0 : List String) (st : OrchSt) (f : String × String)
    (h : OrchInv d0 st) : OrchInv d0 (stepContract outcome st f) := by
  obtain ⟨hnd, hdone, hd0, hproc⟩ := h
  unfold stepContract
  dsimp only
  by_cases hk : recKey f.1 f.2 ∈ st.done
  · rw [if_pos hk]; exact ⟨hnd, hdone, hd0, hproc⟩
  · rw [if_neg hk]
    refine ⟨?_, ?_, ?_, ?_⟩
    · rw [List.map_append]
      simp only [List.map_cons, List.map_nil, rowKey_mkRow]
      rw [(List.perm_append_singleton _ _).nodup_iff, List.nodup_cons]
      exact ⟨fun hmem => hk ((hdone _).2 hmem), hnd⟩
    · intro k
      rw [List.map_append, List.mem_append, List.mem_append]
      simp only [List.map_cons, List.map_nil, List.mem_singleton, rowKey_mkRow]
      exact or_congr (hdone k) Iff.rfl
    · intro k hkd0
      exact List.mem_append.2 (Or.inl (hd0 k hkd0))
    · intro k hkp
      rcases List.mem_append.1 hkp with h1 | h1
      · exact hproc k h1
      · simp only [List.mem_singleton] at h1
        subst h1
        exact fun hc => hk (hd0 _ hc)

theorem foldl_inv (outcome : String → String → ProgressRecord) (d0 : List String) :
    ∀ (files : List (String × String)) (st : OrchSt), OrchInv d0 st →
      OrchInv d0 (files.foldl (stepContract outcome) st)
  | [], _, h => h
  | f :: fs, st, h =>
      foldl_inv outcome d0 fs (stepContract outcome st f)
        (stepContract_inv outcome d0 st f h)

end Harness

/-- C4: for every prior ledger (uniquely keyed, as the data model
requires of the progress CSV) and every retry-toggle setting, after a
run the ledger has at most one row per `(chain, address)` key, and a
key present in the loaded ledger (surviving retry filtering, which
keeps `ok == 1` rows and drops failed rows) is never reprocessed. -/
theorem run_loop_unique_keys_and_skip
    (prev : List ProgressRecord) (retryFailed : Bool)
    (outcome : String → String → ProgressRecord)
    (files : List (String × String))
    (huniq : (prev.map rowKey).Nodup) :
    ((runLoop prev retryFailed outcome files).rows.map rowKey).Nodup ∧
    (∀ r ∈ loadLedger prev retryFailed,
      rowKey r ∉ (runLoop prev retryFailed outcome files).processed) := by
  have hstart : ((loadLedger prev retryFailed).map rowKey).Nodup := by
    unfold loadLedger
    by_cases hr : retryFailed
    · rw [if_pos hr]
      exact huniq.sublist ((List.filter_sublist prev).map rowKey)
    · rwa [if_neg hr]
  have hinv : OrchInv ((loadLedger prev retryFailed).map rowKey)
      (runLoop prev retryFailed outcome files) := by
    unfold runLoop
    exact foldl_inv outcome _ files _
      ⟨hstart, fun _ => Iff.rfl, fun _ h => h, fun _ h => absurd h (by simp)⟩
  refine ⟨hinv.1, fun r hr hmem => ?_⟩
  exact hinv.2.2.2 _ hmem (List.mem_map_of_mem rowKey hr)

namespace Harness

/-- A sample succeeded ledger row for concrete checks. -/
def sampleOkRow : ProgressRecord :=
  { chain := "ethereum", address := "0xa", pragma := "^0.8.0",
    solc_picked := "0.8.26", ok := 1, returncode := 0, json_path := "p",
    err_tail := "", err_class := "ok" }

/-- A sample failed ledger row for concrete checks. -/
def sampleFailRow : ProgressRecord :=
  { chain := "ethereum", address := "0xb", pragma := "", solc_picked := "",
    ok := 0, returncode := 1, json_path := "", err_tail := "e",
    err_class := "other" }

/-- A sample per-contract outcome function for concrete checks. -/
def sampleOutcome (c a : String) : ProgressRecord :=
  { chain := c, address := a, pragma := "", solc_picked := "", ok := 0,
    returncode := 1, json_path := "", err_tail := "boom",
    err_class := "other" }

end Harness

/-- C4 witness: a concrete run — prior ledger with one ok row and one
failed row, retry off, two cache files (one already done) — yields
duplicate-free keys, and the loaded keys are not reprocessed. -/
theorem run_loop_unique_keys_and_skip_witness :
    ((runLoop [sampleOkRow, sampleFailRow] false sampleOutcome
        [("ethereum", "0xa"), ("ethereum", "0xc")]).rows.map rowKey).Nodup ∧
    rowKey sampleOkRow ∉ (runLoop [sampleOkRow, sampleFailRow] false sampleOutcome
        [("ethereum", "0xa"), ("ethereum", "0xc")]).processed := by
  have h := run_loop_unique_keys_and_skip [sampleOkRow, sampleFailRow] false
    sampleOutcome [("ethereum", "0xa"), ("ethereum", "0xc")] (by decide)
  exact ⟨h.1, h.2 sampleOkRow (by decide)⟩

namespace Harness

/-! ### Lock discipline at startup (lines 770-781, 1066-1072) -/

/-- Observable outcome of one `main` invocation: `exitCode = some c`
models `SystemExit(c)`, `lockAfter` whether the lock file exists when
the process ends, `ledgerAfter` the on-disk ledger, and `processed` the
keys processed this run. -/
structure RunOutcome where
  exitCode : Option Nat
  lockAfter : Bool
  ledgerAfter : List ProgressRecord
  processed : List String
deriving Repr

/-- `main` as observed through lock, ledger and processing (lines
767-1072).  When the lock file exists and `ALLOW_CONCURRENT` is unset,
`main` raises `SystemExit(2)` at line 781 — before the `try` block
whose `finally` removes the lock (lines 1066-1072), before the ledger
file is read (line 814) and before any contract is touched — so the
pre-existing lock and the ledger are untouched and nothing is
processed.  Otherwise the loop runs, the final ledger is written
(line 1054) and the lock is removed on the way out. -/
def runHarness (lockExists allowConcurrent : Bool)
    (prev : List ProgressRecord) (retryFailed : Bool)
    (outcome : String → String → ProgressRecord)
    (files : List (String × String)) : RunOutcome :=
  if lockExists && !allowConcurrent then
    { exitCode := some 2, lockAfter := lockExists, ledgerAfter := prev,
      processed := [] }
  else
    let st := runLoop prev retryFailed outcome files
    { exitCode := none, lockAfter := false, ledgerAfter := st.rows,
      processed := st.processed }

end Harness

/-- C9: a pre-existing lock with the concurrency override unset makes
the run exit with the fatal status 2 before processing any contract,
leaving the ledger unmodified and the lock file in place; with the
override set the run proceeds (no fatal exit). -/
theorem lock_conflict_fatal_unless_override :
    (∀ (prev : List ProgressRecord) (retryFailed : Bool)
      (outcome : String → String → ProgressRecord)
      (files : List (String × String)),
      (runHarness true false prev retryFailed outcome files).exitCode = some 2 ∧
      (2 : Nat) ≠ 0 ∧
      (runHarness true false prev retryFailed outcome files).lockAfter = true ∧
      (runHarness true false prev retryFailed outcome files).ledgerAfter = prev ∧
      (runHarness true false prev retryFailed outcome files).processed = []) ∧
    (∀ (prev : List ProgressRecord) (retryFailed : Bool)
      (outcome : String → String → ProgressRecord)
      (files : List (String × String)),
      (runHarness true true prev retryFailed outcome files).exitCode = none) :=
  ⟨fun _ _ _ _ => ⟨rfl, by decide, rfl, rfl, rfl⟩, fun _ _ _ _ => rfl⟩

namespace Harness

/-! ### `_find_solc_binary` (lines 654-692)

The roots come from `_solc_select_roots()` (lines 454-487), which is
environment-dependent (`SOLC_SELECT_DIR`, `VIRTUAL_ENV`, `sys.prefix`,
the home directory); they are taken here as an input list.  The
filesystem is an `isFile` predicate (`p.exists() and p.is_file()`);
`p.resolve()` (absolutization of an existing path) is elided. -/

/-- The candidate version-pinned binary paths probed under one root, in
source order (lines 673-683). -/
def solcCandidatePaths (root ver : String) : List String :=
  [root ++ "/artifacts/solc-" ++ ver,
   root ++ "/artifacts/solc-v" ++ ver,
   root ++ "/solc-" ++ ver,
   root ++ "/solc-v" ++ ver,
   root ++ "/artifacts/solc-" ++ ver ++ "/solc",
   root ++ "/artifacts/solc-v" ++ ver ++ "/solc"]

/-- `_find_solc_binary(ver)` (lines 654-692): empty version yields
`None` (lines 663-664); otherwise, for each existing root, return the
first candidate that is an existing file; with none found, `None` —
never a generic `solc` from the ambient `PATH`. -/
def findSolcBinary (ver : String) (roots : List String)
    (rootExists : String → Bool) (isFile : String → Bool) : Option String :=
  if ver = "" then none
  else
    roots.findSome? fun root =>
      if rootExists root then (solcCandidatePaths root ver).find? isFile
      else none

end Harness

/-- C8: `_find_solc_binary` returns `None` on the empty version
string, and any path it returns is one of the version-pinned candidate
paths under one of the known solc-select roots (and an existing file
there) — in particular it is never an unpinned `solc` taken from the
ambient `PATH`. -/
theorem find_solc_binary_pinned_or_none :
    (∀ (roots : List String) (rootExists isFile : String → Bool),
      findSolcBinary "" roots rootExists isFile = none) ∧
    (∀ (ver : String) (roots : List String) (rootExists isFile : String → Bool)
      (p : String), findSolcBinary ver roots rootExists isFile = some p →
      ∃ root ∈ roots, p ∈ solcCandidatePaths root ver ∧ isFile p = true) := by
  constructor
  · intro roots rootExists isFile
    unfold findSolcBinary
    rw [if_pos rfl]
  · intro ver roots rootExists isFile p hp
    unfold findSolcBinary at hp
    by_cases hv : ver = ""
    · rw [if_pos hv] at hp; exact absurd hp (by simp)
    · rw [if_neg hv] at hp
      obtain ⟨root, hroot, hfind⟩ := List.exists_of_findSome?_eq_some hp
      by_cases hre : rootExists root = true
      · rw [if_pos hre] at hfind
        exact ⟨root, hroot, List.mem_of_find?_eq_some hfind,
          List.find?_some hfind⟩
      · rw [if_neg hre] at hfind
        exact absurd hfind (by simp)

/-- C8 witness: with one root containing an artifacts-layout pinned
binary for 0.8.26, the returned path is that pinned candidate. -/
theorem find_solc_binary_pinned_or_none_witness :
    findSolcBinary "" ["/r"] (fun _ => true) (fun _ => true) = none ∧
    ∃ root ∈ ["/r"], "/r/artifacts/solc-0.8.26" ∈ solcCandidatePaths root "0.8.26" ∧
      (fun p => p = "/r/artifacts/solc-0.8.26" : String → Bool)
        "/r/artifacts/solc-0.8.26" = true :=
  ⟨find_solc_binary_pinned_or_none.1 ["/r"] (fun _ => true) (fun _ => true),
   find_solc_binary_pinned_or_none.2 "0.8.26" ["/r"] (fun _ => true)
     (fun p => p = "/r/artifacts/solc-0.8.26") "/r/artifacts/solc-0.8.26"
     (by decide)⟩

namespace Harness

/-! ### Source-bundle reconstruction (lines 151-252, 376-439)

`write_contract_workdir` receives the raw explorer payload string; the
unwrap-and-`json.loads` step (lines 129-166) is elided by passing the
decoded JSON document alongside (`none` when the payload does not
decode, which routes to the single-file branch exactly as the code's
`return None, None` does).  The per-contract filesystem is the list of
`(workdir-relative path, content)` pairs written. -/

/-- A decoded JSON document. -/
inductive Json where
  | null
  | bool (b : Bool)
  | num (n : Int)
  | str (s : String)
  | arr (elems : List Json)
  | obj (fields : List (String × Json))

/-- `v.get("content") or ""` once the `"content"` key is known present
(line 184): a JSON string yields itself; a falsy value yields `""`
(non-string truthy contents do not occur in explorer bundles and also
collapse to `""` here). -/
def contentOr : Json → String
  | .str s => s
  | _ => ""

/-- One `(rel, v)` entry of a source map (lines 183-186 and 194-198):
a dict with a `"content"` key contributes its content, a bare string
contributes itself, anything else is skipped. -/
def extractEntry (rel : String) (v : Json) : Option (String × String) :=
  match v with
  | .obj fs =>
      match fs.lookup "content" with
      | some c => some (rel, contentOr c)
      | none => none
  | .str s => some (rel, s)
  | _ => none

/-- Python `str(k).lower().endswith(".sol")` (line 192). -/
def endsWithSol (k : String) : Bool := ".sol".data <:+ (lowerStr k).data

/-- `parse_standard_json_bundle` (lines 151-201) on the decoded
document.  The entry comes from the first `settings.compilationTarget`
key (lines 171-176); case 1 extracts a non-empty `sources` map (lines
179-187); case 2 is the legacy multi-file dict whose keys look like
filenames (lines 190-199); everything else yields no bundle.  A
`{`-prefixed payload decodes to a dict, so non-object documents map to
the no-bundle result. -/
def parseStandardJsonBundle (doc : Option Json) :
    Option (List (String × String)) × Option String :=
  match doc with
  | some (.obj fields) =>
      let entry : Option String :=
        match fields.lookup "settings" with
        | some (.obj sfs) =>
            match sfs.lookup "compilationTarget" with
            | some (.obj ((k, _) :: _)) => some k
            | _ => none
        | _ => none
      match fields.lookup "sources" with
      | some (.obj (s :: ss)) =>
          let out := (s :: ss).filterMap (fun kv => extractEntry kv.1 kv.2)
          (if out = [] then none else some out, entry)
      | _ =>
          match fields with
          | [] => (none, none)
          | f :: fs =>
              if (f :: fs).any (fun kv => endsWithSol kv.1) then
                let out2 := (f :: fs).filterMap (fun kv => extractEntry kv.1 kv.2)
                (if out2 = [] then none else some out2, none)
              else (none, none)
  | _ => (none, none)

/-- The fixed OpenZeppelin-style import rewrite table (lines 207-232). -/
def ozImportRewrites : List (String × String) :=
  [("../ERC1967/ERC1967Proxy.sol", "@openzeppelin/contracts/proxy/ERC1967/ERC1967Proxy.sol"),
   ("../ERC1967/ERC1967Upgrade.sol", "@openzeppelin/contracts/proxy/ERC1967/ERC1967Upgrade.sol"),
   ("../beacon/IBeacon.sol", "@openzeppelin/contracts/proxy/beacon/IBeacon.sol"),
   ("../Proxy.sol", "@openzeppelin/contracts/proxy/Proxy.sol"),
   ("./ProxyAdmin.sol", "@openzeppelin/contracts/proxy/transparent/ProxyAdmin.sol"),
   ("./TransparentUpgradeableProxy.sol",
    "@openzeppelin/contracts/proxy/transparent/TransparentUpgradeableProxy.sol"),
   ("../../access/Ownable.sol", "@openzeppelin/contracts/access/Ownable.sol"),
   ("access/Ownable.sol", "@openzeppelin/contracts/access/Ownable.sol"),
   ("../utils/Context.sol", "@openzeppelin/contracts/utils/Context.sol"),
   ("utils/Context.sol", "@openzeppelin/contracts/utils/Context.sol"),
   ("../../utils/Address.sol", "@openzeppelin/contracts/utils/Address.sol"),
   ("utils/Address.sol", "@openzeppelin/contracts/utils/Address.sol"),
   ("../../utils/StorageSlot.sol", "@openzeppelin/contracts/utils/StorageSlot.sol"),
   ("utils/StorageSlot.sol", "@openzeppelin/contracts/utils/StorageSlot.sol"),
   ("../../interfaces/IERC1967.sol", "@openzeppelin/contracts/interfaces/IERC1967.sol"),
   ("./math/Math.sol", "@openzeppelin/contracts/utils/math/Math.sol"),
   ("./math/SignedMath.sol", "@openzeppelin/contracts/utils/math/SignedMath.sol")]

/-- A double-quote and a single-quote character, used to build the
quoted import patterns of lines 250-251. -/
def dq : String := "\""

/-- Single-quote string (built from its code point). -/
def sq : String := ⟨[Char.ofNat 39]⟩

/-- `rewrite_known_imports(sol_source)` (lines 234-252): replace each
table entry inside double quotes and inside single quotes. -/
def rewriteKnownImports (solSource : String) : String :=
  if solSource = "" then solSource
  else
    ozImportRewrites.foldl
      (fun out p =>
        (out.replace (dq ++ p.1 ++ dq) (dq ++ p.2 ++ dq)).replace
          (sq ++ p.1 ++ sq) (sq ++ p.2 ++ sq))
      solSource

/-- Path normalization at lines 396 and 417:
`str(rel).replace("\\", "/").lstrip("/")`. -/
def normalizeRel (rel : String) : String :=
  ⟨(rel.data.map (fun c => if c = '\\' then '/' else c)).dropWhile (fun c => c = '/')⟩

/-- Number of components of a workdir-relative path
(`len(p.relative_to(contract_dir).parts)`, line 428). -/
def pathSegments (p : String) : Nat := (p.data.filter (fun c => c = '/')).length + 1

/-- Code-point lexicographic string order (Python `str` comparison, the
third sort key at line 430). -/
def charListLe : List Char → List Char → Bool
  | [], _ => true
  | _ :: _, [] => false
  | a :: as, b :: bs =>
      if a < b then true else if b < a then false else charListLe as bs

/-- The sort key of the entry heuristic (lines 425-432): fewest path
segments first, then largest file, then lexicographic path. -/
def entryKeyLe (a b : String × String) : Bool :=
  if pathSegments a.1 < pathSegments b.1 then true
  else if pathSegments b.1 < pathSegments a.1 then false
  else if b.2.data.length < a.2.data.length then true
  else if a.2.data.length < b.2.data.length then false
  else charListLe a.1.data b.1.data

/-- `write_contract_workdir(contract_dir, raw)` (lines 376-439),
returning the written files and the entry path, both workdir-relative.
`ensure_vendor_links` (lines 304-373) creates only symlinks to
dependency roots outside the bundle and is elided; `rglob` does not
follow directory symlinks, so the `.sol` scan of the fallback
heuristic (line 423) ranges over the bundle's own files.  File size is
modelled as content length. -/
def writeContractWorkdir (raw : String) (doc : Option Json) :
    List (String × String) × String :=
  match parseStandardJsonBundle doc with
  | (none, _) => ([("contract.sol", rewriteKnownImports raw)], "contract.sol")
  | (some srcs, entryRel) =>
      let files := srcs.map (fun kv => (normalizeRel kv.1, kv.2))
      let chooseFallback : List (String × String) × String :=
        let sol := files.filter (fun kv => ".sol".data <:+ kv.1.data)
        match List.insertionSort (fun a b => entryKeyLe a b = true) sol with
        | best :: _ => (files, best.1)
        | [] => (files ++ [("contract.sol", rewriteKnownImports raw)], "contract.sol")
      match entryRel with
      | some er =>
          let ern := normalizeRel er
          if (files.lookup ern).isSome then (files, ern) else chooseFallback
      | none => chooseFallback

/-- The concrete Standard-JSON payload of the round-trip claim. -/
def c3Content : String := "pragma solidity ^0.8.0; contract A\x7b\x7d"

/-- Decoded form of
`{"sources": {"A.sol": {"content": C}}, "settings":
{"compilationTarget": {"A.sol": "A"}}}`. -/
def c3Payload : Json :=
  .obj [("sources", .obj [("A.sol", .obj [("content", .str c3Content)])]),
        ("settings", .obj [("compilationTarget", .obj [("A.sol", .str "A")])])]

end Harness

/-- C3: materializing the Standard-JSON bundle whose sources map is
`{"A.sol": {"content": C}}` with `settings.compilationTarget`
`{"A.sol": "A"}` returns the entry path `A.sol` (in particular a path
ending in `A.sol`), and the file written at that path holds exactly
`C`. -/
theorem standard_json_roundtrip :
    (writeContractWorkdir "" (some c3Payload)).2 = "A.sol" ∧
    "A.sol".data <:+ (writeContractWorkdir "" (some c3Payload)).2.data ∧
    (writeContractWorkdir "" (some c3Payload)).1.lookup
      ((writeContractWorkdir "" (some c3Payload)).2) = some c3Content := by
  decide
